import Mathlib

/-!
# Verification of the Lab Protocol Optimizer (`protocol_optimizer.py`)

A shallow embedding of the pipeline in `src/protocol_optimizer.py`:
the static catalogue (`ProtocolDatabase`), the keyword matcher
(`ProtocolDatabase.get_optimizations`), the remote-response parser
(`GeminiOptimizer._parse_gemini_response` and its helper extractors),
the remote client's error handling (`GeminiOptimizer.optimize_protocol`),
and the aggregation arithmetic (`ProtocolOptimizer.analyze_protocol`).

Modelling conventions:
* Python strings are `List Char`; `str.lower` is `Char.toLower` per character
  (the texts involved are ASCII).
* Python floats are ℚ (the quantities involved are small decimals; none of the
  verified properties depend on binary rounding).
* The regex character class `\d` is modelled as ASCII `Char.isDigit` and `\s`
  as the ASCII whitespace set, matching Python's behaviour on ASCII text.
* Code that can raise (`float(...)` inside the parser) returns `Except Unit`;
  the surrounding `try/except` of `optimize_protocol` is explicit.
* The network call itself is not modelled; `optimize_protocol` takes the
  outcome of the HTTP request (`ApiOutcome`) as input, exactly the information
  the `try` block of the source inspects.
-/

open scoped List

/-- ASCII whitespace, the characters Python's `str.strip` and the regex class
`\s` treat as whitespace on ASCII text. -/
def isPySpace (c : Char) : Bool :=
  c = ' ' || c = '\t' || c = '\n' || c = '\r' || c = '\x0b' || c = '\x0c'

/-- `str.lower`, per character (ASCII). -/
def lowerStr (s : List Char) : List Char := s.map Char.toLower

/-- `str.strip()`: drop leading and trailing whitespace. -/
def pyStrip (s : List Char) : List Char :=
  ((s.dropWhile isPySpace).reverse.dropWhile isPySpace).reverse

/-- Python's `needle in haystack`: substring test, by scanning suffixes. -/
def containsSub (needle : List Char) : List Char → Bool
  | [] => needle.isPrefixOf []
  | c :: rest => needle.isPrefixOf (c :: rest) || containsSub needle rest

/-- `Optimization` dataclass from the source. -/
structure Optimization where
  type : List Char
  suggestion : List Char
  savings : List Char
  confidence : ℚ
  source : List Char
  estimated_cost_reduction : ℚ := 0
  estimated_time_reduction : ℚ := 0
deriving DecidableEq

/-- `Protocol` dataclass from the source. -/
structure Protocol where
  title : List Char
  description : List Char
  materials : List (List Char)
  steps : List (List Char)
  estimated_cost : ℚ := 0
  estimated_time : ℚ := 0
  constraints : List Char := []
deriving DecidableEq

/-- One entry of the `ProtocolDatabase.protocols` dict: a category key, its
trigger keywords and its optimization templates.  The catalogue's dict→record
conversion done in `analyze_protocol` (lines 324–334, identity on all fields,
with `cost_reduction`/`time_reduction` renamed to the `estimated_*` fields) is
applied once here, so the templates are stored as `Optimization` records. -/
structure CatalogueEntry where
  key : List Char
  keywords : List (List Char)
  optimizations : List Optimization
deriving DecidableEq

/-- The `'pcr'` category (source lines 57–88). -/
def pcrEntry : CatalogueEntry where
  key := "pcr".data
  keywords := ["pcr".data, "amplification".data, "polymerase".data, "thermocycler".data]
  optimizations :=
    [{ type := "Time Reduction".data
       suggestion := "Use fast polymerase (Phusion Flash) to reduce extension time from 1min/kb to 15sec/kb".data
       savings := "75% cycle time reduction".data
       confidence := 0.9
       source := "protocols.io/pcr-optimization-2023".data
       estimated_cost_reduction := 0.0
       estimated_time_reduction := 0.75 },
     { type := "Cost Reduction".data
       suggestion := "Reduce reaction volume from 50Œºl to 20Œºl. Use nested PCR design if sensitivity is needed".data
       savings := "60% reagent cost reduction".data
       confidence := 0.85
       source := "github.com/lab-protocols/pcr-miniaturization".data
       estimated_cost_reduction := 0.6
       estimated_time_reduction := 0.0 },
     { type := "Efficiency Enhancement".data
       suggestion := "Add touchdown PCR protocol to improve specificity and reduce optimization time".data
       savings := "50% optimization time reduction".data
       confidence := 0.8
       source := "bio-protocol.org/touchdown-pcr".data
       estimated_cost_reduction := 0.1
       estimated_time_reduction := 0.3 }]

/-- The `'western_blot'` category (source lines 89–111). -/
def westernBlotEntry : CatalogueEntry where
  key := "western_blot".data
  keywords := ["western".data, "blot".data, "sds-page".data, "immunoblot".data, "antibody".data]
  optimizations :=
    [{ type := "Time Reduction".data
       suggestion := "Use rapid transfer system (iBlot) instead of wet transfer: 7min vs 2hr".data
       savings := "95% transfer time reduction".data
       confidence := 0.9
       source := "protocols.io/rapid-western-transfer".data
       estimated_cost_reduction := 0.0
       estimated_time_reduction := 0.95 },
     { type := "Cost Reduction".data
       suggestion := "Strip and reuse PVDF membranes up to 3 times with mild stripping buffer".data
       savings := "70% membrane cost reduction".data
       confidence := 0.75
       source := "jove.com/membrane-reuse-protocols".data
       estimated_cost_reduction := 0.7
       estimated_time_reduction := 0.0 }]

/-- The `'cell_culture'` category (source lines 112–134). -/
def cellCultureEntry : CatalogueEntry where
  key := "cell_culture".data
  keywords := ["cell culture".data, "culture".data, "media".data, "passage".data, "culture flask".data]
  optimizations :=
    [{ type := "Cost Reduction".data
       suggestion := "Switch to serum-free media (OptiMEM, PowerMed) - reduces cost and variability".data
       savings := "40-60% media cost reduction".data
       confidence := 0.8
       source := "cell-culture-protocols.org/serum-free-2023".data
       estimated_cost_reduction := 0.5
       estimated_time_reduction := 0.1 },
     { type := "Automation".data
       suggestion := "Use automated cell counting (Countess) instead of manual hemocytometer".data
       savings := "80% counting time reduction".data
       confidence := 0.9
       source := "github.com/lab-automation/cell-counting".data
       estimated_cost_reduction := 0.0
       estimated_time_reduction := 0.8 }]

/-- The `'elisa'` category (source lines 135–148). -/
def elisaEntry : CatalogueEntry where
  key := "elisa".data
  keywords := ["elisa".data, "enzyme-linked".data, "immunoassay".data, "plate reader".data]
  optimizations :=
    [{ type := "Cost Reduction".data
       suggestion := "Use half-volume (50Œºl) ELISA protocol in 384-well plates".data
       savings := "50% reagent cost, 4x throughput".data
       confidence := 0.85
       source := "protocols.io/miniaturized-elisa".data
       estimated_cost_reduction := 0.5
       estimated_time_reduction := 0.3 }]

/-- The `'qpcr'` category (source lines 149–162). -/
def qpcrEntry : CatalogueEntry where
  key := "qpcr".data
  keywords := ["qpcr".data, "real-time pcr".data, "quantitative pcr".data, "sybr".data, "taqman".data]
  optimizations :=
    [{ type := "Cost Reduction".data
       suggestion := "Use SYBR Green instead of TaqMan probes where possible (10x cost reduction)".data
       savings := "90% detection cost reduction".data
       confidence := 0.7
       source := "qpcr-protocols.org/sybr-optimization".data
       estimated_cost_reduction := 0.9
       estimated_time_reduction := 0.0 }]

/-- `ProtocolDatabase.protocols`, in the (insertion-preserving) iteration order
of the Python dict. -/
def protocols : List CatalogueEntry :=
  [pcrEntry, westernBlotEntry, cellCultureEntry, elisaEntry, qpcrEntry]

/-- Whether a category's keyword set has a (case-insensitively pre-lowered)
substring hit in the lowered protocol text — the loop condition at line 172. -/
def entryMatches (textLower : List Char) (entry : CatalogueEntry) : Bool :=
  entry.keywords.any (fun keyword => containsSub keyword textLower)

/-- `ProtocolDatabase.get_optimizations` (source lines 165–175): lower the
text once, then extend the accumulator with each matching category's list. -/
def get_optimizations (protocol_text : List Char) : List Optimization :=
  let protocol_text_lower := lowerStr protocol_text
  protocols.foldl
    (fun found_optimizations entry =>
      if entryMatches protocol_text_lower entry then
        found_optimizations ++ entry.optimizations
      else found_optimizations)
    []

/-! ## The response parser (`GeminiOptimizer._parse_gemini_response`, lines 241–273)

The four `re.search` calls are embedded as purpose-built scanners with the
exact leftmost-match-with-backtracking semantics of the patterns involved:

* `LABEL:\s*(.+)` (IGNORECASE): scan left to right for a case-insensitive
  occurrence of the label; `\s*` is greedy with backtracking, `.` excludes
  `'\n'`, `(.+)` is greedy.  `searchFrom label groupPlusLine`.
* `SUGGESTION:\s*(.+)` with DOTALL: same, but `.` matches every character,
  so the greedy group runs to the end of the section.
  `searchFrom label groupPlusDotall`.
* `CONFIDENCE:\s*([\d.]+)` (IGNORECASE): after greedy `\s*` the group must
  start with a digit or dot (backtracking into the whitespace cannot help,
  since whitespace is never a digit or dot); on failure the scan continues at
  the next occurrence of the label.  `searchFrom label groupNumToken`.
-/

/-- Python's `text.split('---')`: leftmost, non-overlapping. -/
def splitDashesAux : List Char → List Char → List (List Char)
  | [], acc => [acc.reverse]
  | '-' :: '-' :: '-' :: rest, acc => acc.reverse :: splitDashesAux rest []
  | c :: rest, acc => splitDashesAux rest (c :: acc)

/-- `text.split('---')`. -/
def splitDashes (s : List Char) : List (List Char) := splitDashesAux s []

/-- Python's `text.split('\n')`, the line decomposition used to localize the
extractor regexes (no pattern atom of theirs can match `'\n'`). -/
def splitNlAux : List Char → List Char → List (List Char)
  | [], acc => [acc.reverse]
  | '\n' :: rest, acc => acc.reverse :: splitNlAux rest []
  | c :: rest, acc => splitNlAux rest (c :: acc)

/-- `text.split('\n')`. -/
def splitNl (s : List Char) : List (List Char) := splitNlAux s []

/-- Greedy `\s*` followed by greedy `(.+)` where `.` excludes `'\n'`
(the single-line labelled-field group).  Backtracking over `\s*` picks the
largest whitespace run that still leaves a first non-newline character for
the group. -/
def groupPlusLine (rest : List Char) : Option (List Char) :=
  let m := (rest.takeWhile isPySpace).length
  if m < rest.length then
    some ((rest.drop m).takeWhile (fun c => c ≠ '\n'))
  else
    let k := (rest.reverse.takeWhile (fun c => c = '\n')).length
    if k < rest.length then
      some ((rest.drop (rest.length - k - 1)).takeWhile (fun c => c ≠ '\n'))
    else none

/-- Greedy `\s*` followed by greedy `(.+)` under DOTALL (`.` matches
everything): the group runs to the end of the string. -/
def groupPlusDotall (rest : List Char) : Option (List Char) :=
  let m := (rest.takeWhile isPySpace).length
  if m < rest.length then some (rest.drop m)
  else if rest.length = 0 then none
  else some (rest.drop (rest.length - 1))

/-- The regex class `[\d.]`. -/
def isDigitDot (c : Char) : Bool := c.isDigit || c = '.'

/-- Greedy `\s*` followed by greedy `([\d.]+)`. -/
def groupNumToken (rest : List Char) : Option (List Char) :=
  match rest.dropWhile isPySpace with
  | [] => none
  | c :: cs => if isDigitDot c then some ((c :: cs).takeWhile isDigitDot) else none

/-- `re.search(LABEL + pattern, s, re.IGNORECASE)`: try every position left to
right; at a case-insensitive occurrence of the label, try the tail pattern
(`matchRest`); keep scanning on failure. -/
def searchFrom (label : List Char) (matchRest : List Char → Option (List Char)) :
    List Char → Option (List Char)
  | [] => none
  | c :: rest =>
    if label.isPrefixOf (lowerStr (c :: rest)) then
      match matchRest ((c :: rest).drop label.length) with
      | some g => some g
      | none => searchFrom label matchRest rest
    else searchFrom label matchRest rest

def typeLabel : List Char := "type:".data
def suggestionLabel : List Char := "suggestion:".data
def savingsLabel : List Char := "savings:".data
def confidenceLabel : List Char := "confidence:".data

/-- `re.search(r'TYPE:\s*(.+)', section, re.IGNORECASE)` (group 1). -/
def findType (s : List Char) : Option (List Char) := searchFrom typeLabel groupPlusLine s

/-- `re.search(r'SUGGESTION:\s*(.+)', section, re.IGNORECASE | re.DOTALL)`. -/
def findSuggestion (s : List Char) : Option (List Char) :=
  searchFrom suggestionLabel groupPlusDotall s

/-- `re.search(r'SAVINGS:\s*(.+)', section, re.IGNORECASE)`. -/
def findSavings (s : List Char) : Option (List Char) := searchFrom savingsLabel groupPlusLine s

/-- `re.search(r'CONFIDENCE:\s*([\d.]+)', section, re.IGNORECASE)`. -/
def findConfidence (s : List Char) : Option (List Char) :=
  searchFrom confidenceLabel groupNumToken s

/-- `re.sub(r'SAVINGS:.*', '', text, flags=re.IGNORECASE | re.DOTALL)`:
with DOTALL the first match extends to the end of the string, so this
truncates at the first case-insensitive occurrence of `SAVINGS:`. -/
def truncAtLabel (label : List Char) : List Char → List Char
  | [] => []
  | c :: rest =>
    if label.isPrefixOf (lowerStr (c :: rest)) then []
    else c :: truncAtLabel label rest

/-- Value of a digit string (`float` on an all-digit string). -/
def digitsToNat (g : List Char) : Nat := g.foldl (fun n c => n * 10 + (c.toNat - 48)) 0

/-- The rational value of `float(intPart + "." + fracPart)`. -/
def pyFloatVal (intPart fracPart : List Char) : ℚ :=
  (digitsToNat intPart : ℚ) + (digitsToNat fracPart : ℚ) / (10 : ℚ) ^ fracPart.length

/-- Python `float(g)` on a string `g` drawn from the class `[\d.]+`:
defined (as a real value) iff `g` has at least one digit and at most one dot;
otherwise `float` raises `ValueError` (modelled as `none`). -/
def pyFloat (g : List Char) : Option ℚ :=
  if g.any Char.isDigit && decide (g.count '.' ≤ 1) then
    let intPart := g.takeWhile (fun c => c ≠ '.')
    some (pyFloatVal intPart (g.drop (intPart.length + 1)))
  else none

/-! ### The cost/time-reduction extractors (`_extract_cost_reduction`,
`_extract_time_reduction`, lines 275–303)

Each regex pattern contains no `\n`-matching atom (the literals have no
newline and `.` excludes `'\n'`), so every match lies within a single line of
the lowered text; `re.search`'s leftmost match is found by scanning the lines
in order.  Greediness of `.*` before a capture group makes the captured
`(\d+)` of `save.*(\d+)%...` / `reduce.*...*(\d+)%` a single digit — the one
immediately preceding the last qualifying `'%'` — which the scanners below
reproduce. -/

/-- Does `n1` occur, followed (at or after its end) by `n2`?  This is
`.*n1.*n2` applied to a whole string. -/
def seqAfter (n1 n2 : List Char) : List Char → Bool
  | [] => false
  | c :: rest =>
    (n1.isPrefixOf (c :: rest) && containsSub n2 ((c :: rest).drop n1.length)) ||
      seqAfter n1 n2 rest

/-- Leftmost match of `(\d+)%.*n1.*n2` within one line; group 1. -/
def scanPctPhrase (n1 n2 : List Char) : List Char → Option (List Char)
  | [] => none
  | c :: rest =>
    if c.isDigit then
      match ((c :: rest).dropWhile Char.isDigit), ((c :: rest).takeWhile Char.isDigit) with
      | '%' :: tail, run => if seqAfter n1 n2 tail then some run else scanPctPhrase n1 n2 rest
      | _, _ => scanPctPhrase n1 n2 rest
    else scanPctPhrase n1 n2 rest

/-- Leftmost match of `(\d+)%.*n1` within one line; group 1. -/
def scanPctContains (n1 : List Char) : List Char → Option (List Char)
  | [] => none
  | c :: rest =>
    if c.isDigit then
      match ((c :: rest).dropWhile Char.isDigit), ((c :: rest).takeWhile Char.isDigit) with
      | '%' :: tail, run => if containsSub n1 tail then some run else scanPctContains n1 rest
      | _, _ => scanPctContains n1 rest
    else scanPctContains n1 rest

/-- The digit immediately before the last `'%'` that is preceded by a digit
and followed (somewhere) by `phrase` — the group captured by a greedy
`.*(\d+)%.*phrase`. -/
def lastDigitPct (phrase : List Char) : List Char → Option Char
  | [] => none
  | [_] => none
  | d :: c :: tail =>
    match lastDigitPct phrase (c :: tail) with
    | some x => some x
    | none =>
      if d.isDigit && c = '%' && containsSub phrase tail then some d else none

/-- The digit immediately before the last `'%'` preceded by a digit — the
group captured by a greedy `.*(\d+)%` at the end of a pattern. -/
def lastDigitPctPlain : List Char → Option Char
  | [] => none
  | [_] => none
  | d :: c :: tail =>
    match lastDigitPctPlain (c :: tail) with
    | some x => some x
    | none => if d.isDigit && c = '%' then some d else none

/-- Latest occurrence of `phrase` that is still followed by a digit-`%` pair;
the group is the digit before the last such pair after it (greedy `.*phrase.*(\d+)%`). -/
def lastKwThenPct (phrase : List Char) : List Char → Option Char
  | [] => none
  | c :: rest =>
    match lastKwThenPct phrase rest with
    | some x => some x
    | none =>
      if phrase.isPrefixOf (c :: rest) then
        lastDigitPctPlain ((c :: rest).drop phrase.length)
      else none

/-- Leftmost match of `kw.*(\d+)%.*phrase` within one line; group 1. -/
def scanKwPctPhrase (kw phrase : List Char) : List Char → Option (List Char)
  | [] => none
  | c :: rest =>
    if kw.isPrefixOf (c :: rest) then
      match lastDigitPct phrase ((c :: rest).drop kw.length) with
      | some d => some [d]
      | none => scanKwPctPhrase kw phrase rest
    else scanKwPctPhrase kw phrase rest

/-- Leftmost match of `kw.*phrase.*(\d+)%` within one line; group 1. -/
def scanKwPhrasePct (kw phrase : List Char) : List Char → Option (List Char)
  | [] => none
  | c :: rest =>
    if kw.isPrefixOf (c :: rest) then
      match lastKwThenPct phrase ((c :: rest).drop kw.length) with
      | some d => some [d]
      | none => scanKwPhrasePct kw phrase rest
    else scanKwPhrasePct kw phrase rest

/-- First line on which the single-line scanner succeeds (leftmost match of
the whole-text search). -/
def firstSome (f : List Char → Option (List Char)) : List (List Char) → Option (List Char)
  | [] => none
  | l :: ls =>
    match f l with
    | some g => some g
    | none => firstSome f ls

/-- `GeminiOptimizer._extract_cost_reduction` (lines 275–288): try the four
patterns in order on the lowered text; first match wins, value is
`float(group)/100`; no match yields `0.0`. -/
def extract_cost_reduction (text : List Char) : ℚ :=
  let ls := splitNl (lowerStr text)
  match firstSome (scanPctPhrase ("cost".data) ("reduction".data)) ls with
  | some g => (digitsToNat g : ℚ) / 100
  | none =>
    match firstSome (scanPctContains ("cheaper".data)) ls with
    | some g => (digitsToNat g : ℚ) / 100
    | none =>
      match firstSome (scanKwPctPhrase ("save".data) ("cost".data)) ls with
      | some g => (digitsToNat g : ℚ) / 100
      | none =>
        match firstSome (scanKwPhrasePct ("reduce".data) ("cost".data)) ls with
        | some g => (digitsToNat g : ℚ) / 100
        | none => 0

/-- `GeminiOptimizer._extract_time_reduction` (lines 290–303). -/
def extract_time_reduction (text : List Char) : ℚ :=
  let ls := splitNl (lowerStr text)
  match firstSome (scanPctPhrase ("time".data) ("reduction".data)) ls with
  | some g => (digitsToNat g : ℚ) / 100
  | none =>
    match firstSome (scanPctContains ("faster".data)) ls with
    | some g => (digitsToNat g : ℚ) / 100
    | none =>
      match firstSome (scanKwPctPhrase ("save".data) ("time".data)) ls with
      | some g => (digitsToNat g : ℚ) / 100
      | none =>
        match firstSome (scanKwPhrasePct ("reduce".data) ("time".data)) ls with
        | some g => (digitsToNat g : ℚ) / 100
        | none => 0

/-- One iteration of the parsing loop (lines 246–271) on a single section:
strip; skip when blank; run the four searches; build a record when `TYPE` and
`SUGGESTION` both matched, where the `float` call on a captured confidence
token can raise (`Except.error`); otherwise drop the section. -/
def parseSection (sec : List Char) : Except Unit (List Optimization) :=
  let s := pyStrip sec
  if s = [] then .ok []
  else
    match findType s, findSuggestion s with
    | some ty, some sug =>
      let suggestion_text := pyStrip (truncAtLabel savingsLabel (pyStrip sug))
      let savings :=
        match findSavings s with
        | some sv => pyStrip sv
        | none => "Variable".data
      (match findConfidence s with
        | some g =>
          match pyFloat g with
          | some q => Except.ok q
          | none => Except.error ()
        | none => Except.ok (0.7 : ℚ)).map
        (fun confidence =>
          [{ type := pyStrip ty
             suggestion := suggestion_text
             savings := savings
             confidence := confidence
             source := "Gemini AI Analysis".data
             estimated_cost_reduction := extract_cost_reduction s
             estimated_time_reduction := extract_time_reduction s }])
    | _, _ => .ok []

/-- The whole parsing loop: sections in order, records appended; an exception
in any iteration propagates (discarding everything). -/
def parseSections : List (List Char) → Except Unit (List Optimization)
  | [] => .ok []
  | sec :: rest => do
    let here ← parseSection sec
    let later ← parseSections rest
    pure (here ++ later)

/-- `GeminiOptimizer._parse_gemini_response` (lines 241–273): split on `---`,
parse each section, cap the result at 5 records (`optimizations[:5]`).
`Except.error` is the un-caught `ValueError` of a malformed confidence. -/
def parse_gemini_response (text : List Char) : Except Unit (List Optimization) :=
  (parseSections (splitDashes text)).map (fun l => l.take 5)

/-! ## The remote client (`GeminiOptimizer.optimize_protocol`, lines 184–239) -/

/-- The observable outcome of the HTTP POST inside the `try` block:
the request itself raised; or a response arrived with a status code and —
when the body's JSON decodes and has the `candidates[0].content.parts[0].text`
path — the extracted text (`none` models a JSON/KeyError). -/
inductive ApiOutcome where
  | requestError
  | response (status_code : Nat) (extracted : Option (List Char))
deriving DecidableEq

/-- `optimize_protocol`'s `try/except`: non-200 status raises; JSON/path
failures raise; `_parse_gemini_response` may raise; every exception is caught,
a warning is printed, and `[]` is returned. -/
def optimize_protocol (outcome : ApiOutcome) : List Optimization :=
  match outcome with
  | .requestError => []
  | .response status_code extracted =>
    if status_code ≠ 200 then []
    else
      match extracted with
      | none => []
      | some text =>
        match parse_gemini_response text with
        | .ok opts => opts
        | .error _ => []

/-! ## Aggregation (`ProtocolOptimizer.analyze_protocol`, lines 312–356) -/

/-- `' '.join(materials)`. -/
def joinSpace : List (List Char) → List Char
  | [] => []
  | [m] => m
  | m :: m2 :: ms => m ++ (" ".data) ++ joinSpace (m2 :: ms)

/-- The text blob handed to the catalogue matcher (line 320):
`f"{protocol.title} {protocol.description} {' '.join(protocol.materials)}"`. -/
def protocolBlob (protocol : Protocol) : List Char :=
  protocol.title ++ (" ".data) ++ protocol.description ++ (" ".data) ++ joinSpace protocol.materials

/-- The sort key of line 344: `key=lambda x: x.confidence, reverse=True`.
A stable descending sort is a stable sort under this comparison. -/
def confGe (a b : Optimization) : Bool := decide (b.confidence ≤ a.confidence)

/-- Line 343–344: concatenate (catalogue first), then stable-sort by
confidence descending (Python's `list.sort` is stable; `List.mergeSort` is
the stable sort in Lean). -/
def combineAndRank (db_opts gemini_opts : List Optimization) : List Optimization :=
  (db_opts ++ gemini_opts).mergeSort confGe

/-- Line 347: `min(sum(opt.estimated_cost_reduction ...), 0.8)`. -/
def total_cost_reduction (opts : List Optimization) : ℚ :=
  min ((opts.map (fun opt => opt.estimated_cost_reduction)).sum) 0.8

/-- Line 348: `min(sum(opt.estimated_time_reduction ...), 0.9)`. -/
def total_time_reduction (opts : List Optimization) : ℚ :=
  min ((opts.map (fun opt => opt.estimated_time_reduction)).sum) 0.9

/-- Line 355: mean confidence, `0` for an empty list. -/
def average_confidence (opts : List Optimization) : ℚ :=
  if opts.isEmpty then 0
  else ((opts.map (fun opt => opt.confidence)).sum) / (opts.length : ℚ)

/-- The dict returned by `analyze_protocol`. -/
structure AnalysisResult where
  optimizations : List Optimization
  total_cost_reduction : ℚ
  total_time_reduction : ℚ
  optimization_count : Nat
  average_confidence : ℚ
deriving DecidableEq

/-- `ProtocolOptimizer.analyze_protocol` (lines 312–356).  `api` is `none`
when no credential was supplied (`self.gemini is None`); otherwise it carries
the outcome of the remote call. -/
def analyze_protocol (protocol : Protocol) (api : Option ApiOutcome) : AnalysisResult :=
  let db_opts := get_optimizations (protocolBlob protocol)
  let gemini_opts :=
    match api with
    | some outcome => optimize_protocol outcome
    | none => []
  let all_optimizations := combineAndRank db_opts gemini_opts
  { optimizations := all_optimizations
    total_cost_reduction := total_cost_reduction all_optimizations
    total_time_reduction := total_time_reduction all_optimizations
    optimization_count := all_optimizations.length
    average_confidence := average_confidence all_optimizations }

/-! ## General lemmas -/

/-- The empty string is a substring of everything. -/
lemma containsSub_nil_left (h : List Char) : containsSub [] h = true := by
  induction h with
  | nil => rfl
  | cons c rest ih => simp [containsSub]

/-- Substring tests are monotone under extending the haystack on the right. -/
lemma containsSub_mono (k a b : List Char) (h : containsSub k a = true) :
    containsSub k (a ++ b) = true := by
  induction a with
  | nil =>
    cases k with
    | nil => simpa using containsSub_nil_left b
    | cons x xs => simp [containsSub, List.isPrefixOf] at h
  | cons c rest ih =>
    rw [containsSub, Bool.or_eq_true] at h
    rcases h with h | h
    · rw [List.isPrefixOf_iff_prefix] at h
      have : k <+: (c :: rest) ++ b := h.trans (List.prefix_append _ _)
      simp only [List.cons_append, containsSub, Bool.or_eq_true]
      exact Or.inl (List.isPrefixOf_iff_prefix.mpr this)
    · simp only [List.cons_append, containsSub, Bool.or_eq_true]
      exact Or.inr (ih h)

/-- The matcher loop, in closed form: filter the catalogue, join the lists. -/
lemma foldl_matching_extend (tl : List Char) (entries : List CatalogueEntry)
    (acc : List Optimization) :
    entries.foldl
        (fun found entry => if entryMatches tl entry then found ++ entry.optimizations else found)
        acc
      = acc ++ ((entries.filter (entryMatches tl)).map CatalogueEntry.optimizations).flatten := by
  induction entries generalizing acc with
  | nil => simp
  | cons e es ih =>
    by_cases h : entryMatches tl e
    · simp [h, ih, List.append_assoc]
    · simp [h, ih]

/-- `get_optimizations` in closed form. -/
lemma get_optimizations_characterization (text : List Char) :
    get_optimizations text =
      ((protocols.filter (entryMatches (lowerStr text))).map CatalogueEntry.optimizations).flatten := by
  show protocols.foldl
      (fun found entry =>
        if entryMatches (lowerStr text) entry then found ++ entry.optimizations else found)
      [] = _
  rw [foldl_matching_extend, List.nil_append]

/-- A category matching the original text still matches the extended text. -/
lemma entryMatches_mono (t s : List Char) (e : CatalogueEntry)
    (h : entryMatches (lowerStr t) e = true) : entryMatches (lowerStr (t ++ s)) e = true := by
  unfold entryMatches at h ⊢
  rw [List.any_eq_true] at h ⊢
  obtain ⟨k, hk, hc⟩ := h
  refine ⟨k, hk, ?_⟩
  rw [lowerStr, List.map_append]
  exact containsSub_mono k (lowerStr t) (lowerStr s) hc

/-- Enlarging the set of selected catalogue entries refines the joined output
to a supersequence. -/
lemma filtered_flatten_sublist (p q : CatalogueEntry → Bool)
    (h : ∀ e, p e = true → q e = true) (l : List CatalogueEntry) :
    ((l.filter p).map CatalogueEntry.optimizations).flatten <+
      ((l.filter q).map CatalogueEntry.optimizations).flatten := by
  induction l with
  | nil => simp
  | cons e es ih =>
    by_cases hp : p e
    · have hq := h e hp
      simp only [List.filter_cons, hp, hq, if_true, List.map_cons, List.flatten_cons]
      exact (List.Sublist.refl _).append ih
    · by_cases hq : q e
      · simp only [List.filter_cons, hp, hq, if_true, if_false, Bool.false_eq_true,
          List.map_cons, List.flatten_cons]
        exact ih.trans (List.sublist_append_right _ _)
      · simp only [List.filter_cons, hp, hq, if_false, Bool.false_eq_true]
        exact ih

/-! ## Claims C1–C4, C8–C10 -/

/-- C1: on any failure of the remote exchange — the request raising, a non-200
status, a JSON/path extraction error, or the response parser raising — the
client returns the empty optimization list instead of propagating. -/
theorem claim1_remote_failure_yields_empty :
    optimize_protocol ApiOutcome.requestError = [] ∧
    (∀ status extracted, status ≠ 200 →
      optimize_protocol (ApiOutcome.response status extracted) = []) ∧
    (∀ status, optimize_protocol (ApiOutcome.response status none) = []) ∧
    (∀ status text, parse_gemini_response text = Except.error () →
      optimize_protocol (ApiOutcome.response status (some text)) = []) := by
  refine ⟨rfl, ?_, ?_, ?_⟩
  · intro status extracted h
    simp [optimize_protocol, h]
  · intro status
    by_cases h : status = 200 <;> simp [optimize_protocol, h]
  · intro status text h
    by_cases hs : status = 200 <;> simp [optimize_protocol, hs, h]

/-- Witness for C1 at concrete inputs: an HTTP 500, and a 200 whose body makes
the parser raise (`float("1.2.3")`). -/
theorem claim1_witness :
    optimize_protocol (ApiOutcome.response 500 none) = [] ∧
    optimize_protocol
        (ApiOutcome.response 200 (some ("TYPE: A\nSUGGESTION: B\nCONFIDENCE: 1.2.3".data))) = [] :=
  ⟨claim1_remote_failure_yields_empty.2.1 500 none (by decide),
   claim1_remote_failure_yields_empty.2.2.2 200 _ (by rfl)⟩

/-- C2: the matcher returns exactly the concatenation, in catalogue order, of
the template lists of the categories with a keyword hit; no hit at all gives
`[]`; and on "PCR amplification using thermocycler" it returns exactly the
three pcr records with their three catalogue sources. -/
theorem claim2_matcher_exact_concatenation :
    (∀ text, get_optimizations text =
      ((protocols.filter (entryMatches (lowerStr text))).map CatalogueEntry.optimizations).flatten) ∧
    (∀ text, (∀ e ∈ protocols, entryMatches (lowerStr text) e = false) →
      get_optimizations text = []) ∧
    get_optimizations ("PCR amplification using thermocycler".data) = pcrEntry.optimizations ∧
    (get_optimizations ("PCR amplification using thermocycler".data)).map Optimization.source =
      [("protocols.io/pcr-optimization-2023".data),
       ("github.com/lab-protocols/pcr-miniaturization".data),
       ("bio-protocol.org/touchdown-pcr".data)] := by
  refine ⟨get_optimizations_characterization, ?_, by rfl, by rfl⟩
  intro text h
  rw [get_optimizations_characterization]
  rw [List.filter_eq_nil_iff.mpr (fun e he => by simp [h e he])]
  rfl

/-- Witness for C2's no-match conjunct at a concrete keyword-free blob. -/
theorem claim2_witness :
    get_optimizations ("hello world".data) = [] :=
  claim2_matcher_exact_concatenation.2.1 ("hello world".data) (by decide)

/-- The sort key `confGe` is transitive. -/
lemma confGe_trans : ∀ a b c : Optimization, confGe a b → confGe b c → confGe a c := by
  intro a b c hab hbc
  simp only [confGe, decide_eq_true_eq] at *
  exact le_trans hbc hab

/-- The sort key `confGe` is total. -/
lemma confGe_total : ∀ a b : Optimization, confGe a b || confGe b a := by
  intro a b
  simp only [confGe, Bool.or_eq_true, decide_eq_true_eq]
  exact le_total b.confidence a.confidence

/-- C3: the aggregator's merged output is sorted by confidence non-increasing,
and stably so: for each confidence value, the records carrying it appear in
the same order as in the concatenated input (catalogue before remote). -/
theorem claim3_rank_sorted_and_stable (db_opts gemini_opts : List Optimization) :
    (combineAndRank db_opts gemini_opts).Pairwise
      (fun a b => b.confidence ≤ a.confidence) ∧
    ∀ c : ℚ,
      (combineAndRank db_opts gemini_opts).filter (fun o => decide (o.confidence = c)) =
        (db_opts ++ gemini_opts).filter (fun o => decide (o.confidence = c)) := by
  constructor
  · exact (List.sorted_mergeSort confGe_trans confGe_total (db_opts ++ gemini_opts)).imp
      (fun h => of_decide_eq_true h)
  · intro c
    have hpair : ((db_opts ++ gemini_opts).filter (fun o => decide (o.confidence = c))).Pairwise
        (fun a b => confGe a b) := by
      apply List.pairwise_of_forall_mem_list
      intro a ha b hb
      rw [List.mem_filter, decide_eq_true_eq] at ha hb
      show confGe a b = true
      simp only [confGe, ha.2, hb.2, decide_eq_true_eq]
      exact le_refl c
    have hsub : (db_opts ++ gemini_opts).filter (fun o => decide (o.confidence = c)) <+
        combineAndRank db_opts gemini_opts :=
      List.sublist_mergeSort confGe_trans confGe_total hpair (List.filter_sublist _)
    have hsub2 := hsub.filter (fun o => decide (o.confidence = c))
    rw [List.filter_filter] at hsub2
    simp only [Bool.and_self] at hsub2
    have hperm : (combineAndRank db_opts gemini_opts).filter
          (fun o => decide (o.confidence = c)) ~
        (db_opts ++ gemini_opts).filter (fun o => decide (o.confidence = c)) :=
      (List.mergeSort_perm (db_opts ++ gemini_opts) confGe).filter _
    exact (hsub2.eq_of_length hperm.length_eq.symm).symm

/-- C4: the aggregate totals are the clamped sums, hence bounded by 0.8/0.9. -/
theorem claim4_totals_clamped (opts : List Optimization)
    (_h : ∀ opt ∈ opts, 0 ≤ opt.estimated_cost_reduction ∧ 0 ≤ opt.estimated_time_reduction) :
    total_cost_reduction opts =
      min ((opts.map (fun o => o.estimated_cost_reduction)).sum) 0.8 ∧
    total_time_reduction opts =
      min ((opts.map (fun o => o.estimated_time_reduction)).sum) 0.9 ∧
    total_cost_reduction opts ≤ 0.8 ∧ total_time_reduction opts ≤ 0.9 :=
  ⟨rfl, rfl, min_le_right _ _, min_le_right _ _⟩

/-- Witness for C4 on the empty record list. -/
theorem claim4_witness : total_cost_reduction [] ≤ 0.8 ∧ total_time_reduction [] ≤ 0.9 :=
  ⟨(claim4_totals_clamped [] (by simp)).2.2.1, (claim4_totals_clamped [] (by simp)).2.2.2⟩

/-- C8: the parser is exactly the uncapped section loop followed by `[:5]`,
so its output never has more than 5 records, and is the first-5 prefix of the
full encounter-order record list. -/
theorem claim8_parser_caps_at_five (text : List Char) :
    parse_gemini_response text =
      (parseSections (splitDashes text)).map (fun l => l.take 5) ∧
    ∀ l, parse_gemini_response text = Except.ok l → l.length ≤ 5 := by
  refine ⟨rfl, ?_⟩
  intro l h
  unfold parse_gemini_response at h
  cases hp : parseSections (splitDashes text) with
  | error e => rw [hp] at h; cases h
  | ok full =>
    rw [hp] at h
    have : full.take 5 = l := by
      simpa [Except.map] using h
    rw [← this]
    exact (List.length_take_le 5 full)

/-- A record produced by a section with only `TYPE` and `SUGGESTION`. -/
def capRecord : Optimization where
  type := "A".data
  suggestion := "B".data
  savings := "Variable".data
  confidence := 0.7
  source := "Gemini AI Analysis".data
  estimated_cost_reduction := 0
  estimated_time_reduction := 0

/-- A response text with 7 well-formed segments. -/
def sevenBlocksText : List Char :=
  ("TYPE: A\nSUGGESTION: B\n---TYPE: A\nSUGGESTION: B\n---TYPE: A\nSUGGESTION: B\n---" ++
   "TYPE: A\nSUGGESTION: B\n---TYPE: A\nSUGGESTION: B\n---TYPE: A\nSUGGESTION: B\n---" ++
   "TYPE: A\nSUGGESTION: B").data

/-- Witness for C8: seven well-formed segments parse to exactly the first
five records. -/
theorem claim8_witness :
    parse_gemini_response sevenBlocksText =
      Except.ok [capRecord, capRecord, capRecord, capRecord, capRecord] ∧
    [capRecord, capRecord, capRecord, capRecord, capRecord].length ≤ 5 :=
  ⟨by rfl, (claim8_parser_caps_at_five sevenBlocksText).2 _ (by rfl)⟩

/-- C9: the aggregator's mean confidence is 0 on the empty list and the
record's own confidence on a singleton. -/
theorem claim9_average_confidence_base_cases :
    average_confidence [] = 0 ∧
    ∀ opt : Optimization, average_confidence [opt] = opt.confidence := by
  refine ⟨rfl, ?_⟩
  intro opt
  simp [average_confidence]

/-- C10: extending the protocol text only extends the matcher's output (the
original output is a subsequence of the new one), and the output is always
the catalogue-order join of the selected categories, independent of where in
the text the keywords occur. -/
theorem claim10_matcher_monotone_fixed_order :
    (∀ t s, get_optimizations t <+ get_optimizations (t ++ s)) ∧
    (∀ t, get_optimizations t =
      ((protocols.filter (entryMatches (lowerStr t))).map CatalogueEntry.optimizations).flatten) := by
  refine ⟨?_, get_optimizations_characterization⟩
  intro t s
  rw [get_optimizations_characterization t, get_optimizations_characterization (t ++ s)]
  exact filtered_flatten_sublist _ _ (fun e he => entryMatches_mono t s e he) protocols

/-! ## Claims C5, C6 -/

/-- `float` on a `[\d.]+` token never produces a negative value. -/
lemma pyFloat_nonneg (g : List Char) (q : ℚ) (h : pyFloat g = some q) : 0 ≤ q := by
  unfold pyFloat at h
  split at h
  · injection h with h
    rw [← h]
    unfold pyFloatVal
    positivity
  · cases h

/-- Any record an `Except.ok` run of the section parser produces carries
either the 0.7 default or a value `float` successfully parsed. -/
lemma parseSection_ok_confidence (sec : List Char) (l : List Optimization)
    (h : parseSection sec = Except.ok l) (o : Optimization) (ho : o ∈ l) :
    o.confidence = (0.7 : ℚ) ∨
      ∃ g, findConfidence (pyStrip sec) = some g ∧ pyFloat g = some o.confidence := by
  unfold parseSection at h
  by_cases hne : pyStrip sec = []
  · rw [if_pos hne] at h
    injection h with h
    rw [← h] at ho
    cases ho
  · rw [if_neg hne] at h
    rcases hty : findType (pyStrip sec) with _ | ty <;>
      rcases hsug : findSuggestion (pyStrip sec) with _ | sug <;>
      simp only [hty, hsug] at h
    · injection h with h; rw [← h] at ho; cases ho
    · injection h with h; rw [← h] at ho; cases ho
    · injection h with h; rw [← h] at ho; cases ho
    · rcases hc : findConfidence (pyStrip sec) with _ | g <;>
        simp only [hc, Except.map] at h
      · left
        injection h with h
        rw [← h, List.mem_singleton] at ho
        rw [ho]
      · rcases hq : pyFloat g with _ | q <;> simp only [hq] at h
        · exact Except.noConfusion h
        · right
          refine ⟨g, rfl, ?_⟩
          injection h with h
          rw [← h, List.mem_singleton] at ho
          rw [ho, hq]

/-- C5, counterexample to the claim as stated: on a segment whose
`CONFIDENCE` token is captured but is not a valid number (`1.2.3`), the
parser raises (`float` ValueError) instead of defaulting to 0.7 — the
surrounding client then swallows the whole response, returning `[]`. -/
theorem claim5_counterexample :
    parse_gemini_response ("TYPE: A\nSUGGESTION: B\nCONFIDENCE: 1.2.3".data) =
      Except.error () ∧
    optimize_protocol
        (ApiOutcome.response 200
          (some ("TYPE: A\nSUGGESTION: B\nCONFIDENCE: 1.2.3".data))) = [] :=
  ⟨by rfl, by rfl⟩

/-- C5 as amended: on a segment with `TYPE` and `SUGGESTION` matches, a
missing `CONFIDENCE` capture defaults the confidence to 0.7; a captured but
unparsable token makes the parser raise (no default). -/
theorem claim5_confidence_default_or_raise (sec ty sug : List Char)
    (hty : findType (pyStrip sec) = some ty)
    (hsug : findSuggestion (pyStrip sec) = some sug) :
    (findConfidence (pyStrip sec) = none →
      Except.map (List.map (fun o => o.confidence)) (parseSection sec) =
        Except.ok [(0.7 : ℚ)]) ∧
    (∀ g, findConfidence (pyStrip sec) = some g → pyFloat g = none →
      parseSection sec = Except.error ()) := by
  have hne : pyStrip sec ≠ [] := by
    intro h
    rw [h] at hty
    exact Option.noConfusion hty
  constructor
  · intro hconf
    unfold parseSection
    rw [if_neg hne]
    simp only [hty, hsug, hconf]
    rfl
  · intro g hconf hfloat
    unfold parseSection
    rw [if_neg hne]
    simp only [hty, hsug, hconf, hfloat]
    rfl

/-- Witness for C5 (amended): a segment with no `CONFIDENCE` label defaults
to 0.7; a segment with the unparsable token `1.2.3` raises. -/
theorem claim5_witness :
    Except.map (List.map (fun o => o.confidence))
        (parseSection ("TYPE: A\nSUGGESTION: B".data)) = Except.ok [(0.7 : ℚ)] ∧
    parseSection ("TYPE: A\nSUGGESTION: B\nCONFIDENCE: 1.2.3".data) = Except.error () :=
  ⟨(claim5_confidence_default_or_raise ("TYPE: A\nSUGGESTION: B".data)
      ("A".data) ("B".data) (by rfl) (by rfl)).1 (by rfl),
   (claim5_confidence_default_or_raise ("TYPE: A\nSUGGESTION: B\nCONFIDENCE: 1.2.3".data)
      ("A".data) ("B\nCONFIDENCE: 1.2.3".data) (by rfl) (by rfl)).2
      ("1.2.3".data) (by rfl) (by rfl)⟩

/-- C6, counterexample to the claim as stated: the parser does not clamp a
parsed confidence, so a remote segment with `CONFIDENCE: 5` yields a record
whose confidence is 5 > 1. -/
theorem claim6_counterexample :
    Except.map (List.map (fun o => o.confidence))
        (parse_gemini_response ("TYPE: A\nSUGGESTION: B\nCONFIDENCE: 5".data)) =
      Except.ok [pyFloatVal (['5']) ([])] ∧
    1 < pyFloatVal (['5']) ([]) := by
  refine ⟨by rfl, ?_⟩
  have h5 : digitsToNat (['5']) = 5 := rfl
  have h0 : digitsToNat ([]) = 0 := rfl
  rw [pyFloatVal, h5, h0]
  norm_num

/-- C6 as amended: every catalogue template's confidence lies in `[0,1]`, and
every record the response parser builds has non-negative confidence (the 0.7
default, or a parsed — unclamped, possibly `> 1` — numeric value). -/
theorem claim6_confidence_bounds :
    (∀ e ∈ protocols, ∀ o ∈ e.optimizations, 0 ≤ o.confidence ∧ o.confidence ≤ 1) ∧
    (∀ sec l, parseSection sec = Except.ok l → ∀ o ∈ l, 0 ≤ o.confidence) := by
  constructor
  · intro e he o ho
    simp only [protocols, List.mem_cons, List.not_mem_nil, or_false] at he
    rcases he with rfl | rfl | rfl | rfl | rfl
    · simp only [pcrEntry, List.mem_cons, List.not_mem_nil, or_false] at ho
      rcases ho with rfl | rfl | rfl <;> constructor <;> norm_num
    · simp only [westernBlotEntry, List.mem_cons, List.not_mem_nil, or_false] at ho
      rcases ho with rfl | rfl <;> constructor <;> norm_num
    · simp only [cellCultureEntry, List.mem_cons, List.not_mem_nil, or_false] at ho
      rcases ho with rfl | rfl <;> constructor <;> norm_num
    · simp only [elisaEntry, List.mem_cons, List.not_mem_nil, or_false] at ho
      rcases ho with rfl
      constructor <;> norm_num
    · simp only [qpcrEntry, List.mem_cons, List.not_mem_nil, or_false] at ho
      rcases ho with rfl
      constructor <;> norm_num
  · intro sec l hl o ho
    rcases parseSection_ok_confidence sec l hl o ho with h | ⟨g, _, hq⟩
    · rw [h]; norm_num
    · exact pyFloat_nonneg g o.confidence hq

/-- Witness for C6 (amended) at the first pcr template and at a concrete
parsed segment. -/
theorem claim6_witness :
    (0 ≤ (pcrEntry.optimizations.headD capRecord).confidence ∧
      (pcrEntry.optimizations.headD capRecord).confidence ≤ 1) ∧
    0 ≤ capRecord.confidence :=
  ⟨claim6_confidence_bounds.1 pcrEntry (by simp [protocols])
      (pcrEntry.optimizations.headD capRecord) (by simp [pcrEntry]),
   claim6_confidence_bounds.2 ("TYPE: A\nSUGGESTION: B".data) [capRecord] (by rfl)
      capRecord (by simp)⟩

/-! ## Claim C7: infrastructure

The round-trip proof hinges on locating each label's first case-insensitive
occurrence in a well-formed block.  The lemmas below let a `searchFrom` scan
pass over a region made of literal label headers and newline-free field
values without a spurious match. -/

lemma lowerStr_append (a b : List Char) : lowerStr (a ++ b) = lowerStr a ++ lowerStr b :=
  List.map_append _ _ _

/-- `containsSub` decides the infix relation. -/
lemma containsSub_iff_infix (n h : List Char) : containsSub n h = true ↔ n <:+: h := by
  induction h with
  | nil =>
    cases n with
    | nil => simp [containsSub, List.isPrefixOf]
    | cons c cs =>
      simp only [containsSub, List.isPrefixOf]
      constructor
      · intro hh; cases hh
      · intro hh
        have := hh.length_le
        simp at this
  | cons c rest ih =>
    rw [containsSub, Bool.or_eq_true, List.isPrefixOf_iff_prefix, ih, List.infix_cons_iff]

/-- A label with an early character mismatch against (the lowering of) `x`
cannot be a prefix of `lowerStr (x ++ y)`, whatever `y` is. -/
lemma not_isPrefixOf_of_mismatch (label x y : List Char) (i : Nat) (u v : Char)
    (hu : label[i]? = some u) (hv : (lowerStr x)[i]? = some v) (huv : u ≠ v) :
    label.isPrefixOf (lowerStr (x ++ y)) = false := by
  by_contra hcon
  rw [Bool.not_eq_false, List.isPrefixOf_iff_prefix] at hcon
  obtain ⟨t, ht⟩ := hcon
  have hiu : i < label.length := by
    rcases List.getElem?_eq_some_iff.mp hu with ⟨hlt, _⟩
    exact hlt
  have hiv : i < (lowerStr x).length := by
    rcases List.getElem?_eq_some_iff.mp hv with ⟨hlt, _⟩
    exact hlt
  have h1 : (label ++ t)[i]? = some u := by
    rw [List.getElem?_append_left hiu]
    exact hu
  have h2 : (lowerStr (x ++ y))[i]? = some v := by
    rw [lowerStr_append, List.getElem?_append_left hiv]
    exact hv
  rw [ht] at h1
  rw [h1] at h2
  exact huv (Option.some.inj h2)

/-- Every nonempty suffix of `lit` disagrees with `label` at some index inside
`lit` — decidable, discharged by `decide` at each concrete label/literal pair. -/
def allSuffixMismatch (label lit : List Char) : Bool :=
  lit.tails.all (fun s =>
    s.isEmpty ||
      (List.range (min label.length s.length)).any
        (fun i => decide (label[i]? ≠ (lowerStr s)[i]?)))

lemma allSuffixMismatch_spec (label lit : List Char) (h : allSuffixMismatch label lit = true)
    (s : List Char) (hs : s <:+ lit) (hne : s ≠ []) (y : List Char) :
    label.isPrefixOf (lowerStr (s ++ y)) = false := by
  rw [allSuffixMismatch, List.all_eq_true] at h
  have hmem : s ∈ lit.tails := (List.mem_tails s lit).mpr hs
  have := h s hmem
  rw [Bool.or_eq_true] at this
  rcases this with he | hany
  · rw [List.isEmpty_iff] at he
    exact absurd he hne
  · rw [List.any_eq_true] at hany
    obtain ⟨i, hi, hne2⟩ := hany
    rw [List.mem_range, Nat.lt_min] at hi
    rw [decide_eq_true_eq] at hne2
    obtain ⟨hil, hsl⟩ := hi
    have hsl2 : i < (lowerStr s).length := by simpa [lowerStr] using hsl
    have hu : label[i]? = some (label.get ⟨i, hil⟩) := List.getElem?_eq_getElem hil
    have hv : (lowerStr s)[i]? = some ((lowerStr s).get ⟨i, hsl2⟩) :=
      List.getElem?_eq_getElem hsl2
    refine not_isPrefixOf_of_mismatch label s y i _ _ hu hv ?_
    intro huv
    rw [hu, hv, huv] at hne2
    exact hne2 rfl

/-- A label that contains no newline and does not occur in a (lowered) field
cannot match at any nonempty suffix of the field followed by a newline. -/
lemma not_isPrefixOf_at_field_suffix (label field rest fsuf : List Char)
    (hnl : ('\n') ∉ label)
    (hno : containsSub label (lowerStr field) = false)
    (hsuf : fsuf <:+ field) (_hne : fsuf ≠ []) :
    label.isPrefixOf (lowerStr (fsuf ++ '\n' :: rest)) = false := by
  by_contra hcon
  rw [Bool.not_eq_false, List.isPrefixOf_iff_prefix] at hcon
  by_cases hlen : label.length ≤ fsuf.length
  · -- the label sits entirely inside the field: an occurrence, contradiction
    have hlow : lowerStr (fsuf ++ '\n' :: rest) = lowerStr fsuf ++ lowerStr ('\n' :: rest) :=
      lowerStr_append _ _
    rw [hlow] at hcon
    have hpre : label <+: lowerStr fsuf := by
      refine List.prefix_of_prefix_length_le hcon (List.prefix_append _ _) ?_
      simpa [lowerStr] using hlen
    have hinf : label <:+: lowerStr field := by
      obtain ⟨t, ht⟩ := hpre
      obtain ⟨s2, hsfx⟩ := hsuf.map Char.toLower
      exact ⟨s2, t, by rw [List.append_assoc, ht]; exact hsfx⟩
    rw [← containsSub_iff_infix] at hinf
    rw [hno] at hinf
    exact Bool.false_ne_true hinf
  · -- the label would have to cover the newline after the field
    push_neg at hlen
    obtain ⟨t, ht⟩ := hcon
    have h1 : (lowerStr (fsuf ++ '\n' :: rest))[fsuf.length]? = some '\n' := by
      rw [lowerStr_append]
      rw [List.getElem?_append_right (by simp [lowerStr])]
      have hz : fsuf.length - (lowerStr fsuf).length = 0 := by simp [lowerStr]
      rw [hz]
      simp [lowerStr]
    rw [← ht, List.getElem?_append_left hlen] at h1
    exact hnl (List.getElem?_mem h1)

/-- Decomposing a suffix of an append. -/
lemma suffix_append_cases {α : Type} {l a b : List α} (h : l <:+ a ++ b) :
    l <:+ b ∨ ∃ a2, a2 <:+ a ∧ a2 ≠ [] ∧ l = a2 ++ b := by
  induction a with
  | nil => exact Or.inl (by simpa using h)
  | cons c rest ih =>
    rw [List.cons_append, List.suffix_cons_iff] at h
    rcases h with rfl | h
    · exact Or.inr ⟨c :: rest, List.suffix_refl _, by simp, rfl⟩
    · rcases ih h with h2 | ⟨a2, hs, hne, rfl⟩
      · exact Or.inl h2
      · exact Or.inr ⟨a2, hs.trans (List.suffix_cons c rest), hne, rfl⟩

/-- A scan passes over a block none of whose nonempty suffixes can start a
label match. -/
lemma searchFrom_append (label : List Char) (f : List Char → Option (List Char)) (a b : List Char)
    (h : ∀ a2, a2 ≠ [] → a2 <:+ a → label.isPrefixOf (lowerStr (a2 ++ b)) = false) :
    searchFrom label f (a ++ b) = searchFrom label f b := by
  induction a with
  | nil => rw [List.nil_append]
  | cons c rest ih =>
    have hc := h (c :: rest) (by simp) (List.suffix_refl _)
    rw [List.cons_append] at hc ⊢
    rw [searchFrom, hc]
    simp only [Bool.false_eq_true, if_false]
    exact ih (fun a2 hne hsuf => h a2 hne (hsuf.trans (List.suffix_cons c rest)))

/-- A scan matches at the head position when the label matches there and the
tail pattern succeeds. -/
lemma searchFrom_head (label : List Char) (f : List Char → Option (List Char))
    (c : Char) (rest : List Char) (g : List Char)
    (hpre : label.isPrefixOf (lowerStr (c :: rest)) = true)
    (hf : f ((c :: rest).drop label.length) = some g) :
    searchFrom label f (c :: rest) = some g := by
  rw [searchFrom, hpre]
  simp only [if_true, hf]

/-- Rendering of a `(label header, field value)` chain in front of a tail:
each segment is `lit ++ field ++ '\n'`. -/
def renderSegs : List (List Char × List Char) → List Char → List Char
  | [], b => b
  | (lit, f) :: segs, b => lit ++ (f ++ '\n' :: renderSegs segs b)

lemma renderSegs_ne_nil (segs : List (List Char × List Char)) (b : List Char) (h : b ≠ []) :
    renderSegs segs b ≠ [] := by
  cases segs with
  | nil => exact h
  | cons p segs =>
    obtain ⟨lit, f⟩ := p
    rw [renderSegs]
    simp

/-- A label with no newline, absent from all the chain's fields and blocked by
all its literal headers, is first found past the chain. -/
lemma searchFrom_renderSegs (label : List Char) (f : List Char → Option (List Char))
    (segs : List (List Char × List Char)) (b : List Char)
    (hnl : ('\n') ∉ label) (hlne : label ≠ [])
    (hsegs : ∀ p ∈ segs, allSuffixMismatch label p.1 = true ∧
      containsSub label (lowerStr p.2) = false) :
    searchFrom label f (renderSegs segs b) = searchFrom label f b := by
  induction segs with
  | nil => rfl
  | cons p segs ih =>
    obtain ⟨lit, fld⟩ := p
    obtain ⟨hlit, hfld⟩ := hsegs (lit, fld) (by simp)
    rw [renderSegs]
    rw [searchFrom_append label f lit _
      (fun a2 hne hsuf => allSuffixMismatch_spec label lit hlit a2 hsuf hne _)]
    have hfld2 : ∀ a2, a2 ≠ [] → a2 <:+ fld →
        label.isPrefixOf (lowerStr (a2 ++ '\n' :: renderSegs segs b)) = false :=
      fun a2 hne hsuf =>
        not_isPrefixOf_at_field_suffix label fld (renderSegs segs b) a2 hnl hfld hsuf hne
    rw [show fld ++ '\n' :: renderSegs segs b = (fld ++ ['\n']) ++ renderSegs segs b by
      rw [List.append_assoc]; rfl]
    rw [searchFrom_append label f (fld ++ ['\n']) _ ?hblock]
    · exact ih (fun q hq => hsegs q (by simp [hq]))
    case hblock =>
      intro a2 hne hsuf
      rcases suffix_append_cases hsuf with hs | ⟨a3, hs3, hne3, rfl⟩
      · -- suffix of ['\n']: either [] or ['\n'], label starts with a non-newline
        rcases List.suffix_cons_iff.mp hs with rfl | hs2
        · cases label with
          | nil => exact absurd rfl hlne
          | cons lc lrest =>
            have hlc : lc ≠ '\n' := fun hh => hnl (by rw [← hh]; exact List.mem_cons_self _ _)
            refine not_isPrefixOf_of_mismatch (lc :: lrest) ('\n' :: []) (renderSegs segs b)
              0 lc ('\n') (by simp) (by simp [lowerStr]) hlc
        · rw [List.suffix_nil] at hs2
          exact absurd hs2 hne
      · rw [List.append_assoc]
        exact hfld2 a3 hne3 hs3

/-- A label matching at the start of `lit` matches at the start of `lit ++ r`. -/
lemma isPrefixOf_lower_of_lit (label lit r : List Char)
    (h : label.isPrefixOf (lowerStr lit) = true) :
    label.isPrefixOf (lowerStr (lit ++ r)) = true := by
  rw [List.isPrefixOf_iff_prefix] at h ⊢
  rw [lowerStr_append]
  exact h.trans (List.prefix_append _ _)

/-- Truncation at a label: passes over a label-free block, cuts at the match. -/
lemma truncAtLabel_append (label a b : List Char)
    (h : ∀ a2, a2 ≠ [] → a2 <:+ a → label.isPrefixOf (lowerStr (a2 ++ b)) = false)
    (hb : label.isPrefixOf (lowerStr b) = true) :
    truncAtLabel label (a ++ b) = a := by
  induction a with
  | nil =>
    rw [List.nil_append]
    cases b with
    | nil => rfl
    | cons c r =>
      rw [truncAtLabel, hb]
      simp
  | cons c rest ih =>
    have hc := h (c :: rest) (by simp) (List.suffix_refl _)
    rw [List.cons_append] at hc ⊢
    rw [truncAtLabel, hc]
    simp only [Bool.false_eq_true, if_false, List.cons.injEq, true_and]
    exact ih (fun a2 hne hsuf => h a2 hne (hsuf.trans (List.suffix_cons c rest)))

lemma takeWhile_append_stop (p : Char → Bool) (a : List Char) (c : Char) (b : List Char)
    (ha : ∀ x ∈ a, p x = true) (hc : p c = false) :
    (a ++ c :: b).takeWhile p = a := by
  induction a with
  | nil =>
    rw [List.nil_append, List.takeWhile_cons, hc]
    simp
  | cons x xs ih =>
    rw [List.cons_append, List.takeWhile_cons, ha x (by simp)]
    simp only [if_true, List.cons.injEq, true_and]
    exact ih (fun y hy => ha y (by simp [hy]))

lemma dropWhile_cons_neg (p : Char → Bool) (c : Char) (b : List Char) (hc : p c = false) :
    (c :: b).dropWhile p = c :: b := by
  rw [List.dropWhile_cons, hc]
  simp

lemma headD_append_left (a b : List Char) (d : Char) (h : a ≠ []) :
    (a ++ b).headD d = a.headD d := by
  cases a with
  | nil => exact absurd rfl h
  | cons c t => rfl

lemma reverse_headD_append (a b : List Char) (d : Char) (h : b ≠ []) :
    (a ++ b).reverse.headD d = b.reverse.headD d := by
  rw [List.reverse_append]
  exact headD_append_left _ _ _ (by simpa using h)

lemma reverse_headD_cons (c : Char) (b : List Char) (d : Char) (h : b ≠ []) :
    (c :: b).reverse.headD d = b.reverse.headD d := by
  rw [show c :: b = (c :: []) ++ b from rfl]
  exact reverse_headD_append _ _ _ h

lemma renderSegs_reverse_headD (segs : List (List Char × List Char)) (b : List Char) (d : Char)
    (h : b ≠ []) :
    (renderSegs segs b).reverse.headD d = b.reverse.headD d := by
  induction segs with
  | nil => rfl
  | cons p segs ih =>
    obtain ⟨lit, f⟩ := p
    rw [renderSegs]
    rw [reverse_headD_append _ _ _ (by simp)]
    rw [reverse_headD_append _ _ _ (by simp)]
    rw [reverse_headD_cons _ _ _ (renderSegs_ne_nil segs b h)]
    exact ih

/-- `strip` is the identity on a string with non-space first and last
characters. -/
lemma pyStrip_eq_self (s : List Char) (hne : s ≠ [])
    (h1 : isPySpace (s.headD 'x') = false) (h2 : isPySpace (s.reverse.headD 'x') = false) :
    pyStrip s = s := by
  cases s with
  | nil => rfl
  | cons c t =>
    rw [pyStrip]
    rw [dropWhile_cons_neg _ _ _ (by simpa using h1)]
    rcases hrev : (c :: t).reverse with _ | ⟨r, rt⟩
    · simp at hrev
    · rw [hrev] at h2
      rw [dropWhile_cons_neg _ _ _ (by simpa using h2)]
      rw [← hrev, List.reverse_reverse]

/-- `strip` of a clean string followed by a newline drops just the newline. -/
lemma pyStrip_append_newline (s : List Char) (hne : s ≠ [])
    (h1 : isPySpace (s.headD 'x') = false) (h2 : isPySpace (s.reverse.headD 'x') = false) :
    pyStrip (s ++ ('\n' :: [])) = s := by
  cases s with
  | nil => exact absurd rfl hne
  | cons c t =>
    rw [pyStrip, List.cons_append]
    rw [dropWhile_cons_neg _ _ _ (by simpa using h1)]
    rw [← List.cons_append, List.reverse_append]
    rw [show (('\n' : Char) :: []).reverse = ('\n' : Char) :: [] from rfl]
    rw [List.singleton_append, List.dropWhile_cons]
    rw [show isPySpace ('\n') = true from rfl, if_pos rfl]
    rcases hrev : (c :: t).reverse with _ | ⟨r, rt⟩
    · simp at hrev
    · rw [hrev] at h2
      rw [dropWhile_cons_neg _ _ _ (by simpa using h2)]
      rw [← hrev, List.reverse_reverse]

lemma isDigitDot_of_isPySpace (c : Char) (h : isPySpace c = true) : isDigitDot c = false := by
  rw [isPySpace] at h
  simp only [Bool.or_eq_true, decide_eq_true_eq] at h
  rcases h with ((((rfl | rfl) | rfl) | rfl) | rfl) | rfl <;> rfl

lemma isPySpace_eq_false_of_isDigitDot (c : Char) (h : isDigitDot c = true) :
    isPySpace c = false := by
  by_contra hc
  rw [Bool.not_eq_false] at hc
  rw [isDigitDot_of_isPySpace c hc] at h
  exact Bool.false_ne_true h

/-- The single-line group after `LABEL: ` captures exactly the newline-free
field that follows. -/
lemma groupPlusLine_at_field (field rest : List Char) (hne : field ≠ [])
    (hhead : isPySpace (field.headD 'x') = false) (hnl : ('\n') ∉ field) :
    groupPlusLine (' ' :: (field ++ '\n' :: rest)) = some field := by
  cases field with
  | nil => exact absurd rfl hne
  | cons c t =>
    have htw : ((' ' :: ((c :: t) ++ '\n' :: rest)).takeWhile isPySpace) = (' ' :: []) := by
      rw [List.takeWhile_cons]
      simp only [show isPySpace ' ' = true from rfl, if_true]
      rw [List.cons_append, List.takeWhile_cons]
      rw [show isPySpace c = false from by simpa using hhead]
      simp
    simp only [groupPlusLine, htw]
    rw [if_pos (by simp)]
    rw [show ((' ' :: []).length : Nat) = 1 from rfl]
    rw [show ((' ' :: ((c :: t) ++ '\n' :: rest)).drop 1) = (c :: t) ++ '\n' :: rest from rfl]
    rw [takeWhile_append_stop (fun x => decide (x ≠ '\n')) (c :: t) ('\n') rest
      (fun x hx => decide_eq_true (fun hh => hnl (hh ▸ hx))) (by simp)]

/-- The DOTALL group after `LABEL: ` captures everything that follows. -/
lemma groupPlusDotall_at_field (field rest : List Char) (hne : field ≠ [])
    (hhead : isPySpace (field.headD 'x') = false) :
    groupPlusDotall (' ' :: (field ++ rest)) = some (field ++ rest) := by
  cases field with
  | nil => exact absurd rfl hne
  | cons c t =>
    have htw : ((' ' :: ((c :: t) ++ rest)).takeWhile isPySpace) = (' ' :: []) := by
      rw [List.takeWhile_cons]
      simp only [show isPySpace ' ' = true from rfl, if_true]
      rw [List.cons_append, List.takeWhile_cons]
      rw [show isPySpace c = false from by simpa using hhead]
      simp
    simp only [groupPlusDotall, htw]
    rw [if_pos (by simp)]
    rfl

/-- The `[\d.]+` group after `CONFIDENCE: ` captures exactly the digit/dot
token that follows. -/
lemma groupNumToken_at_field (cf rest : List Char) (hne : cf ≠ [])
    (hdd : ∀ c ∈ cf, isDigitDot c = true) :
    groupNumToken (' ' :: (cf ++ '\n' :: rest)) = some cf := by
  cases cf with
  | nil => exact absurd rfl hne
  | cons c t =>
    have hdw : ((' ' :: ((c :: t) ++ '\n' :: rest)).dropWhile isPySpace) =
        c :: (t ++ '\n' :: rest) := by
      rw [List.dropWhile_cons]
      simp only [show isPySpace ' ' = true from rfl, if_true]
      rw [List.cons_append]
      exact dropWhile_cons_neg _ _ _ (isPySpace_eq_false_of_isDigitDot c (hdd c (by simp)))
    simp only [groupNumToken, hdw]
    rw [hdd c (by simp)]
    simp only [if_true]
    rw [show c :: (t ++ '\n' :: rest) = (c :: t) ++ '\n' :: rest from rfl]
    rw [takeWhile_append_stop _ _ _ _ (fun x hx => hdd x hx) (by rfl)]

/-! ## Claim C7: the well-formed block and the round-trip theorem -/

lemma append_ne_nil_left (a b : List Char) (h : a ≠ []) : a ++ b ≠ [] := by
  cases a with
  | nil => exact absurd rfl h
  | cons c t => simp

lemma searchFrom_match_headed (label : List Char) (f : List Char → Option (List Char))
    (s g : List Char) (hs : s ≠ [])
    (hpre : label.isPrefixOf (lowerStr s) = true)
    (hf : f (s.drop label.length) = some g) :
    searchFrom label f s = some g := by
  cases s with
  | nil => exact absurd rfl hs
  | cons c rest => exact searchFrom_head label f c rest g hpre hf

def labelStrings : List (List Char) :=
  [typeLabel, suggestionLabel, savingsLabel, confidenceLabel, ("reasoning:").data]

/-- A well-formed field value of a labelled block: nonempty, single-line,
with no surrounding whitespace, and free of the five label strings. -/
def cleanField (s : List Char) : Prop :=
  s ≠ [] ∧ ('\n') ∉ s ∧ isPySpace (s.headD 'x') = false ∧
    isPySpace (s.reverse.headD 'x') = false ∧
    ∀ lb ∈ labelStrings, containsSub lb (lowerStr s) = false

instance cleanFieldDecidable (s : List Char) : Decidable (cleanField s) := by
  unfold cleanField
  infer_instance

def reasoningTail (rs : List Char) : List Char := ("REASONING: ").data ++ rs

def blockTail3 (cf rs : List Char) : List Char :=
  renderSegs [((("CONFIDENCE: ").data), cf)] (reasoningTail rs)

def blockTail2 (sv cf rs : List Char) : List Char :=
  renderSegs [((("SAVINGS: ").data), sv), ((("CONFIDENCE: ").data), cf)] (reasoningTail rs)

def blockTail1 (sug sv cf rs : List Char) : List Char :=
  renderSegs
    [((("SUGGESTION: ").data), sug), ((("SAVINGS: ").data), sv), ((("CONFIDENCE: ").data), cf)]
    (reasoningTail rs)

/-- The five-field block of the claim:
`TYPE: ty\nSUGGESTION: sug\nSAVINGS: sv\nCONFIDENCE: cf\nREASONING: rs`. -/
def mkBlock (ty sug sv cf rs : List Char) : List Char :=
  renderSegs
    [((("TYPE: ").data), ty), ((("SUGGESTION: ").data), sug), ((("SAVINGS: ").data), sv),
      ((("CONFIDENCE: ").data), cf)]
    (reasoningTail rs)

lemma findType_mkBlock (ty sug sv cf rs : List Char) (h : cleanField ty) :
    findType (mkBlock ty sug sv cf rs) = some ty := by
  obtain ⟨hne, hnl, hh, _, _⟩ := h
  apply searchFrom_match_headed _ _ _ _ (by simp [mkBlock, renderSegs])
  · exact isPrefixOf_lower_of_lit typeLabel (("TYPE: ").data)
      (ty ++ '\n' :: blockTail1 sug sv cf rs) (by decide)
  · show groupPlusLine (' ' :: (ty ++ '\n' :: blockTail1 sug sv cf rs)) = some ty
    exact groupPlusLine_at_field ty _ hne hh hnl

lemma findSuggestion_mkBlock (ty sug sv cf rs : List Char)
    (hty : cleanField ty) (hsug : cleanField sug) :
    findSuggestion (mkBlock ty sug sv cf rs) = some (sug ++ '\n' :: blockTail2 sv cf rs) := by
  obtain ⟨_, _, _, _, tylb⟩ := hty
  obtain ⟨sugne, _, sugh, _, _⟩ := hsug
  have hpass : searchFrom suggestionLabel groupPlusDotall (mkBlock ty sug sv cf rs) =
      searchFrom suggestionLabel groupPlusDotall (blockTail1 sug sv cf rs) :=
    searchFrom_renderSegs suggestionLabel groupPlusDotall
      [((("TYPE: ").data), ty)] (blockTail1 sug sv cf rs) (by decide) (by decide)
      (by
        intro p hp
        rw [List.mem_singleton] at hp
        subst hp
        exact ⟨show allSuffixMismatch suggestionLabel (("TYPE: ").data) = true by decide,
          tylb suggestionLabel (by simp [labelStrings])⟩)
  rw [findSuggestion, hpass]
  apply searchFrom_match_headed _ _ _ _ (by simp [blockTail1, renderSegs])
  · exact isPrefixOf_lower_of_lit suggestionLabel (("SUGGESTION: ").data)
      (sug ++ '\n' :: blockTail2 sv cf rs) (by decide)
  · show groupPlusDotall (' ' :: (sug ++ ('\n' :: blockTail2 sv cf rs))) = _
    exact groupPlusDotall_at_field sug _ sugne sugh

lemma findSavings_mkBlock (ty sug sv cf rs : List Char)
    (hty : cleanField ty) (hsug : cleanField sug) (hsv : cleanField sv) :
    findSavings (mkBlock ty sug sv cf rs) = some sv := by
  obtain ⟨_, _, _, _, tylb⟩ := hty
  obtain ⟨_, _, _, _, suglb⟩ := hsug
  obtain ⟨svne, svnl, svh, _, _⟩ := hsv
  have hpass : searchFrom savingsLabel groupPlusLine (mkBlock ty sug sv cf rs) =
      searchFrom savingsLabel groupPlusLine (blockTail2 sv cf rs) :=
    searchFrom_renderSegs savingsLabel groupPlusLine
      [((("TYPE: ").data), ty), ((("SUGGESTION: ").data), sug)] (blockTail2 sv cf rs)
      (by decide) (by decide)
      (by
        intro p hp
        simp only [List.mem_cons, List.not_mem_nil, or_false] at hp
        rcases hp with rfl | rfl
        · exact ⟨show allSuffixMismatch savingsLabel (("TYPE: ").data) = true by decide,
            tylb savingsLabel (by simp [labelStrings])⟩
        · exact ⟨show allSuffixMismatch savingsLabel (("SUGGESTION: ").data) = true by decide,
            suglb savingsLabel (by simp [labelStrings])⟩)
  rw [findSavings, hpass]
  apply searchFrom_match_headed _ _ _ _ (by simp [blockTail2, renderSegs])
  · exact isPrefixOf_lower_of_lit savingsLabel (("SAVINGS: ").data)
      (sv ++ '\n' :: blockTail3 cf rs) (by decide)
  · show groupPlusLine (' ' :: (sv ++ '\n' :: blockTail3 cf rs)) = some sv
    exact groupPlusLine_at_field sv _ svne svh svnl

lemma findConfidence_mkBlock (ty sug sv cf rs : List Char)
    (hty : cleanField ty) (hsug : cleanField sug) (hsv : cleanField sv)
    (hcfne : cf ≠ []) (hcfdd : ∀ c ∈ cf, isDigitDot c = true) :
    findConfidence (mkBlock ty sug sv cf rs) = some cf := by
  obtain ⟨_, _, _, _, tylb⟩ := hty
  obtain ⟨_, _, _, _, suglb⟩ := hsug
  obtain ⟨_, _, _, _, svlb⟩ := hsv
  have hpass : searchFrom confidenceLabel groupNumToken (mkBlock ty sug sv cf rs) =
      searchFrom confidenceLabel groupNumToken (blockTail3 cf rs) :=
    searchFrom_renderSegs confidenceLabel groupNumToken
      [((("TYPE: ").data), ty), ((("SUGGESTION: ").data), sug), ((("SAVINGS: ").data), sv)]
      (blockTail3 cf rs) (by decide) (by decide)
      (by
        intro p hp
        simp only [List.mem_cons, List.not_mem_nil, or_false] at hp
        rcases hp with rfl | rfl | rfl
        · exact ⟨show allSuffixMismatch confidenceLabel (("TYPE: ").data) = true by decide,
            tylb confidenceLabel (by simp [labelStrings])⟩
        · exact ⟨show allSuffixMismatch confidenceLabel (("SUGGESTION: ").data) = true by decide,
            suglb confidenceLabel (by simp [labelStrings])⟩
        · exact ⟨show allSuffixMismatch confidenceLabel (("SAVINGS: ").data) = true by decide,
            svlb confidenceLabel (by simp [labelStrings])⟩)
  rw [findConfidence, hpass]
  apply searchFrom_match_headed _ _ _ _ (by simp [blockTail3, renderSegs])
  · exact isPrefixOf_lower_of_lit confidenceLabel (("CONFIDENCE: ").data)
      (cf ++ '\n' :: reasoningTail rs) (by decide)
  · show groupNumToken (' ' :: (cf ++ '\n' :: reasoningTail rs)) = some cf
    exact groupNumToken_at_field cf _ hcfne hcfdd

/-- The suggestion clean-up of lines 259–260 recovers exactly the suggestion
field: the DOTALL capture is stripped, truncated at the `SAVINGS:` label, and
stripped again. -/
lemma suggestion_text_mkBlock (sug sv cf rs : List Char)
    (hsug : cleanField sug) (hrs : cleanField rs) :
    pyStrip (truncAtLabel savingsLabel (pyStrip (sug ++ '\n' :: blockTail2 sv cf rs))) = sug := by
  obtain ⟨sugne, sugnl, sugh, sugl, suglb⟩ := hsug
  obtain ⟨rsne, _, _, rsl, _⟩ := hrs
  have hbase : reasoningTail rs ≠ [] := append_ne_nil_left _ _ (by decide)
  have hstrip1 : pyStrip (sug ++ '\n' :: blockTail2 sv cf rs) =
      sug ++ '\n' :: blockTail2 sv cf rs := by
    apply pyStrip_eq_self _ (append_ne_nil_left _ _ sugne)
    · rw [headD_append_left _ _ _ sugne]
      exact sugh
    · simp only [blockTail2]
      rw [reverse_headD_append _ _ _ (by simp)]
      rw [reverse_headD_cons _ _ _ (renderSegs_ne_nil _ _ hbase)]
      rw [renderSegs_reverse_headD _ _ _ hbase]
      rw [reasoningTail, reverse_headD_append _ _ _ rsne]
      exact rsl
  rw [hstrip1]
  have htrunc : truncAtLabel savingsLabel (sug ++ '\n' :: blockTail2 sv cf rs) =
      sug ++ ('\n' :: []) := by
    rw [show sug ++ '\n' :: blockTail2 sv cf rs =
      (sug ++ ('\n' :: [])) ++ blockTail2 sv cf rs from by simp]
    apply truncAtLabel_append
    · intro a2 hne hsuf
      rcases suffix_append_cases hsuf with hs | ⟨a3, hs3, hne3, rfl⟩
      · rcases List.suffix_cons_iff.mp hs with rfl | hs2
        · exact not_isPrefixOf_of_mismatch savingsLabel ('\n' :: []) _ 0 's' ('\n')
            (by decide) (by decide) (by decide)
        · rw [List.suffix_nil] at hs2
          exact absurd hs2 hne
      · rw [List.append_assoc]
        exact not_isPrefixOf_at_field_suffix savingsLabel sug _ a3 (by decide)
          (suglb savingsLabel (by simp [labelStrings])) hs3 hne3
    · exact isPrefixOf_lower_of_lit savingsLabel (("SAVINGS: ").data)
        (sv ++ '\n' :: blockTail3 cf rs) (by decide)
  rw [htrunc]
  exact pyStrip_append_newline sug sugne sugh sugl

/-- Evaluation of one loop iteration when all four searches succeed and the
confidence token parses. -/
lemma parseSection_full (sec ty sugG svG g : List Char) (q : ℚ)
    (hne : pyStrip sec ≠ [])
    (hT : findType (pyStrip sec) = some ty)
    (hS : findSuggestion (pyStrip sec) = some sugG)
    (hV : findSavings (pyStrip sec) = some svG)
    (hC : findConfidence (pyStrip sec) = some g)
    (hq : pyFloat g = some q) :
    parseSection sec = Except.ok
      [{ type := pyStrip ty
         suggestion := pyStrip (truncAtLabel savingsLabel (pyStrip sugG))
         savings := pyStrip svG
         confidence := q
         source := ("Gemini AI Analysis").data
         estimated_cost_reduction := extract_cost_reduction (pyStrip sec)
         estimated_time_reduction := extract_time_reduction (pyStrip sec) }] := by
  unfold parseSection
  rw [if_neg hne]
  simp only [hT, hS, hV, hC, hq]
  rfl

/-- C7: a well-formed five-field block parses to exactly one record whose
`type`, `suggestion`, `savings` and `confidence` are the labelled field
values (the multi-line suggestion capture is truncated at `SAVINGS:` and
stripped back to the field); a segment lacking a `TYPE` or a `SUGGESTION`
match yields no record. -/
theorem claim7_parser_round_trip :
    (∀ ty sug sv cf rs q, cleanField ty → cleanField sug → cleanField sv → cleanField rs →
      cf ≠ [] → (∀ c ∈ cf, isDigitDot c = true) → pyFloat cf = some q →
      Except.map (List.map (fun o => (o.type, o.suggestion, o.savings, o.confidence)))
          (parseSection (mkBlock ty sug sv cf rs)) =
        Except.ok [(ty, sug, sv, q)]) ∧
    (∀ sec, findType (pyStrip sec) = none ∨ findSuggestion (pyStrip sec) = none →
      parseSection sec = Except.ok []) := by
  constructor
  · intro ty sug sv cf rs q hty hsug hsv hrs hcfne hcfdd hq
    have hstrip : pyStrip (mkBlock ty sug sv cf rs) = mkBlock ty sug sv cf rs := by
      apply pyStrip_eq_self _ (by simp [mkBlock, renderSegs])
      · exact (show isPySpace ('T') = false by decide)
      · simp only [mkBlock]
        rw [renderSegs_reverse_headD _ _ _
          (show reasoningTail rs ≠ [] from append_ne_nil_left _ _ (by decide))]
        rw [reasoningTail, reverse_headD_append _ _ _ hrs.1]
        exact hrs.2.2.2.1
    have hT : findType (pyStrip (mkBlock ty sug sv cf rs)) = some ty := by
      rw [hstrip]
      exact findType_mkBlock ty sug sv cf rs hty
    have hS : findSuggestion (pyStrip (mkBlock ty sug sv cf rs)) =
        some (sug ++ '\n' :: blockTail2 sv cf rs) := by
      rw [hstrip]
      exact findSuggestion_mkBlock ty sug sv cf rs hty hsug
    have hV : findSavings (pyStrip (mkBlock ty sug sv cf rs)) = some sv := by
      rw [hstrip]
      exact findSavings_mkBlock ty sug sv cf rs hty hsug hsv
    have hC : findConfidence (pyStrip (mkBlock ty sug sv cf rs)) = some cf := by
      rw [hstrip]
      exact findConfidence_mkBlock ty sug sv cf rs hty hsug hsv hcfne hcfdd
    rw [parseSection_full (mkBlock ty sug sv cf rs) ty (sug ++ '\n' :: blockTail2 sv cf rs)
      sv cf q (by rw [hstrip]; simp [mkBlock, renderSegs]) hT hS hV hC hq]
    simp only [Except.map, List.map_cons, List.map_nil]
    rw [pyStrip_eq_self ty hty.1 hty.2.2.1 hty.2.2.2.1]
    rw [pyStrip_eq_self sv hsv.1 hsv.2.2.1 hsv.2.2.2.1]
    rw [suggestion_text_mkBlock sug sv cf rs hsug hrs]
  · intro sec h
    unfold parseSection
    by_cases hne : pyStrip sec = []
    · rw [if_pos hne]
    · rw [if_neg hne]
      rcases h with h | h
      · rcases hS : findSuggestion (pyStrip sec) with _ | s <;> simp only [h, hS]
      · rcases hT : findType (pyStrip sec) with _ | t <;> simp only [hT, h]

/-- Witness for C7: a concrete well-formed block round-trips, and a concrete
label-free section yields no record. -/
theorem claim7_witness :
    Except.map (List.map (fun o => (o.type, o.suggestion, o.savings, o.confidence)))
        (parseSection (mkBlock (("Cost Reduction").data) (("Buy reagents in bulk").data)
          (("30% lower unit price").data) (("0.8").data) (("Bulk pricing").data))) =
      Except.ok [((("Cost Reduction").data), (("Buy reagents in bulk").data),
        (("30% lower unit price").data), pyFloatVal (('0' : Char) :: []) (('8' : Char) :: []))] ∧
    parseSection (("no labelled fields here").data) = Except.ok [] :=
  ⟨claim7_parser_round_trip.1 (("Cost Reduction").data) (("Buy reagents in bulk").data)
      (("30% lower unit price").data) (("0.8").data) (("Bulk pricing").data)
      (pyFloatVal (('0' : Char) :: []) (('8' : Char) :: []))
      (by decide) (by decide) (by decide) (by decide) (by decide) (by decide) (by rfl),
   claim7_parser_round_trip.2 (("no labelled fields here").data) (Or.inl (by rfl))⟩
